import Mathlib

/- Verification of the ukmm map-unit resource adapter, the diff/merge engine it
uses, the Platform/endian settings, and the actorinfo patch-ingestion pipeline.
The Rust sources embedded here are `uk-content/src/map/unit.rs`,
`src/settings.rs` and `uk-manager/src/bnp/actorinfo.rs`. -/

/-- Bit pattern of a Rust `f32` scalar. The adapter code only copies and
compares float fields, never computes with them, so a float is embedded as its
raw 32-bit pattern with structural equality. -/
structure F32 where
  bits : Nat
deriving DecidableEq, Repr

/-- Byte-order comparison of two character lists, the order `roead`'s
`Hash` (a `BTreeMap<String, Byml>`) sorts its string keys by. -/
def strLtChars : List Char → List Char → Bool
  | [], [] => false
  | [], _ :: _ => true
  | _ :: _, [] => false
  | a :: as, b :: bs =>
    if a.toNat < b.toNat then true
    else if b.toNat < a.toNat then false
    else strLtChars as bs

/-- String order used for `Byml` hash keys. -/
def strLt (a b : String) : Bool := strLtChars a.data b.data

/-- Value-tree node of `roead::byml::Byml`: tagged scalar variants, an ordered
sequence, and a key-ordered map of string to node (hash entries are kept sorted
by `strLt`). -/
inductive Byml where
  | null
  | bool (b : Bool)
  | int (i : Int)
  | uint (n : Nat)
  | float (f : F32)
  | str (s : String)
  | binary (bs : List Nat)
  | array (xs : List Byml)
  | hash (xs : List (String × Byml))

mutual

def Byml.decEq : (a b : Byml) → Decidable (a = b)
  | .null, .null => isTrue rfl
  | .bool a, .bool b => @decidable_of_iff _ _ (by simp) (inferInstanceAs (Decidable (a = b)))
  | .int a, .int b => @decidable_of_iff _ _ (by simp) (inferInstanceAs (Decidable (a = b)))
  | .uint a, .uint b => @decidable_of_iff _ _ (by simp) (inferInstanceAs (Decidable (a = b)))
  | .float a, .float b => @decidable_of_iff _ _ (by simp) (inferInstanceAs (Decidable (a = b)))
  | .str a, .str b => @decidable_of_iff _ _ (by simp) (inferInstanceAs (Decidable (a = b)))
  | .binary a, .binary b => @decidable_of_iff _ _ (by simp) (inferInstanceAs (Decidable (a = b)))
  | .array xs, .array ys => @decidable_of_iff _ _ (by simp) (Byml.decEqList xs ys)
  | .hash xs, .hash ys => @decidable_of_iff _ _ (by simp) (Byml.decEqHash xs ys)
  | .null, .bool _ => isFalse (fun h => Byml.noConfusion h)
  | .null, .int _ => isFalse (fun h => Byml.noConfusion h)
  | .null, .uint _ => isFalse (fun h => Byml.noConfusion h)
  | .null, .float _ => isFalse (fun h => Byml.noConfusion h)
  | .null, .str _ => isFalse (fun h => Byml.noConfusion h)
  | .null, .binary _ => isFalse (fun h => Byml.noConfusion h)
  | .null, .array _ => isFalse (fun h => Byml.noConfusion h)
  | .null, .hash _ => isFalse (fun h => Byml.noConfusion h)
  | .bool _, .null => isFalse (fun h => Byml.noConfusion h)
  | .bool _, .int _ => isFalse (fun h => Byml.noConfusion h)
  | .bool _, .uint _ => isFalse (fun h => Byml.noConfusion h)
  | .bool _, .float _ => isFalse (fun h => Byml.noConfusion h)
  | .bool _, .str _ => isFalse (fun h => Byml.noConfusion h)
  | .bool _, .binary _ => isFalse (fun h => Byml.noConfusion h)
  | .bool _, .array _ => isFalse (fun h => Byml.noConfusion h)
  | .bool _, .hash _ => isFalse (fun h => Byml.noConfusion h)
  | .int _, .null => isFalse (fun h => Byml.noConfusion h)
  | .int _, .bool _ => isFalse (fun h => Byml.noConfusion h)
  | .int _, .uint _ => isFalse (fun h => Byml.noConfusion h)
  | .int _, .float _ => isFalse (fun h => Byml.noConfusion h)
  | .int _, .str _ => isFalse (fun h => Byml.noConfusion h)
  | .int _, .binary _ => isFalse (fun h => Byml.noConfusion h)
  | .int _, .array _ => isFalse (fun h => Byml.noConfusion h)
  | .int _, .hash _ => isFalse (fun h => Byml.noConfusion h)
  | .uint _, .null => isFalse (fun h => Byml.noConfusion h)
  | .uint _, .bool _ => isFalse (fun h => Byml.noConfusion h)
  | .uint _, .int _ => isFalse (fun h => Byml.noConfusion h)
  | .uint _, .float _ => isFalse (fun h => Byml.noConfusion h)
  | .uint _, .str _ => isFalse (fun h => Byml.noConfusion h)
  | .uint _, .binary _ => isFalse (fun h => Byml.noConfusion h)
  | .uint _, .array _ => isFalse (fun h => Byml.noConfusion h)
  | .uint _, .hash _ => isFalse (fun h => Byml.noConfusion h)
  | .float _, .null => isFalse (fun h => Byml.noConfusion h)
  | .float _, .bool _ => isFalse (fun h => Byml.noConfusion h)
  | .float _, .int _ => isFalse (fun h => Byml.noConfusion h)
  | .float _, .uint _ => isFalse (fun h => Byml.noConfusion h)
  | .float _, .str _ => isFalse (fun h => Byml.noConfusion h)
  | .float _, .binary _ => isFalse (fun h => Byml.noConfusion h)
  | .float _, .array _ => isFalse (fun h => Byml.noConfusion h)
  | .float _, .hash _ => isFalse (fun h => Byml.noConfusion h)
  | .str _, .null => isFalse (fun h => Byml.noConfusion h)
  | .str _, .bool _ => isFalse (fun h => Byml.noConfusion h)
  | .str _, .int _ => isFalse (fun h => Byml.noConfusion h)
  | .str _, .uint _ => isFalse (fun h => Byml.noConfusion h)
  | .str _, .float _ => isFalse (fun h => Byml.noConfusion h)
  | .str _, .binary _ => isFalse (fun h => Byml.noConfusion h)
  | .str _, .array _ => isFalse (fun h => Byml.noConfusion h)
  | .str _, .hash _ => isFalse (fun h => Byml.noConfusion h)
  | .binary _, .null => isFalse (fun h => Byml.noConfusion h)
  | .binary _, .bool _ => isFalse (fun h => Byml.noConfusion h)
  | .binary _, .int _ => isFalse (fun h => Byml.noConfusion h)
  | .binary _, .uint _ => isFalse (fun h => Byml.noConfusion h)
  | .binary _, .float _ => isFalse (fun h => Byml.noConfusion h)
  | .binary _, .str _ => isFalse (fun h => Byml.noConfusion h)
  | .binary _, .array _ => isFalse (fun h => Byml.noConfusion h)
  | .binary _, .hash _ => isFalse (fun h => Byml.noConfusion h)
  | .array _, .null => isFalse (fun h => Byml.noConfusion h)
  | .array _, .bool _ => isFalse (fun h => Byml.noConfusion h)
  | .array _, .int _ => isFalse (fun h => Byml.noConfusion h)
  | .array _, .uint _ => isFalse (fun h => Byml.noConfusion h)
  | .array _, .float _ => isFalse (fun h => Byml.noConfusion h)
  | .array _, .str _ => isFalse (fun h => Byml.noConfusion h)
  | .array _, .binary _ => isFalse (fun h => Byml.noConfusion h)
  | .array _, .hash _ => isFalse (fun h => Byml.noConfusion h)
  | .hash _, .null => isFalse (fun h => Byml.noConfusion h)
  | .hash _, .bool _ => isFalse (fun h => Byml.noConfusion h)
  | .hash _, .int _ => isFalse (fun h => Byml.noConfusion h)
  | .hash _, .uint _ => isFalse (fun h => Byml.noConfusion h)
  | .hash _, .float _ => isFalse (fun h => Byml.noConfusion h)
  | .hash _, .str _ => isFalse (fun h => Byml.noConfusion h)
  | .hash _, .binary _ => isFalse (fun h => Byml.noConfusion h)
  | .hash _, .array _ => isFalse (fun h => Byml.noConfusion h)

def Byml.decEqList : (xs ys : List Byml) → Decidable (xs = ys)
  | [], [] => isTrue rfl
  | [], _ :: _ => isFalse (fun h => List.noConfusion h)
  | _ :: _, [] => isFalse (fun h => List.noConfusion h)
  | x :: xs, y :: ys =>
    match Byml.decEq x y with
    | isFalse h => isFalse (fun he => by cases he; exact h rfl)
    | isTrue h =>
      match Byml.decEqList xs ys with
      | isFalse h2 => isFalse (fun he => by cases he; exact h2 rfl)
      | isTrue h2 => isTrue (by rw [h, h2])

def Byml.decEqHash : (xs ys : List (String × Byml)) → Decidable (xs = ys)
  | [], [] => isTrue rfl
  | [], _ :: _ => isFalse (fun h => List.noConfusion h)
  | _ :: _, [] => isFalse (fun h => List.noConfusion h)
  | (k, x) :: xs, (k2, y) :: ys =>
    if hk : k = k2 then
      match Byml.decEq x y with
      | isFalse h => isFalse (fun he => by cases he; exact h rfl)
      | isTrue h =>
        match Byml.decEqHash xs ys with
        | isFalse h2 => isFalse (fun he => by cases he; exact h2 rfl)
        | isTrue h2 => isTrue (by rw [hk, h, h2])
    else isFalse (fun he => by cases he; exact hk rfl)

end

instance : DecidableEq Byml := Byml.decEq

/-- Error type of `uk-content` decode failures. `MissingBymlKey` carries the
stable human-readable tag used in `unit.rs`; `WrongBymlType` is modelled from
the spec (the `UKError` definition itself is not under the sources provided):
typed accessors "fail with a typed error when the tag does not match",
carrying the expected shape's name. -/
inductive UKError where
  | MissingBymlKey (tag : String)
  | WrongBymlType (expected : String)
deriving DecidableEq, Repr

/-- Typed accessor `Byml::as_hash`: the hash entries, or a typed error. -/
def Byml.as_hash : Byml → Except UKError (List (String × Byml))
  | .hash xs => Except.ok xs
  | _ => Except.error (UKError.WrongBymlType "hash")

/-- Typed accessor `Byml::as_array`. -/
def Byml.as_array : Byml → Except UKError (List Byml)
  | .array xs => Except.ok xs
  | _ => Except.error (UKError.WrongBymlType "array")

/-- Typed accessor `Byml::as_float`. -/
def Byml.as_float : Byml → Except UKError F32
  | .float f => Except.ok f
  | _ => Except.error (UKError.WrongBymlType "float")

/-- Typed accessor `Byml::as_uint` (u32 nodes). -/
def Byml.as_uint : Byml → Except UKError Nat
  | .uint n => Except.ok n
  | _ => Except.error (UKError.WrongBymlType "uint")

/-- Lookup of a string key in a `Byml` hash's entry list. -/
def hashGet (h : List (String × Byml)) (k : String) : Option Byml :=
  (h.find? (fun e => e.1 == k)).map Prod.snd

/-- Modelled from the spec: `SortedDeleteMap<u32, V>`, the Delete-Tracking
Ordered Map of the `uk-content` util module (its code is not among the provided
sources; only `unit.rs` uses it). Following §3/§4.1 of the spec it is an
associative container from a stable `u32` identifier to a value, supporting
tombstoned removal; per its name entries are kept sorted by key, which makes
the container's order canonical. An entry value of `none` is a tombstone,
`some v` a live entry. -/
structure SortedDeleteMap (β : Type) where
  entries : List (Nat × Option β)
deriving DecidableEq

/-- Per-key emission step of the sorted merge-walk: `f` decides, from the two
sides' entries at one key (`none` = no entry, `some v` = entry with payload
`v`), whether the result has an entry at that key and with which payload. -/
def walkEmit {β : Type} (f : Option (Option β) → Option (Option β) → Option (Option β))
    (k : Nat) (o1 o2 : Option (Option β)) : List (Nat × Option β) :=
  match f o1 o2 with
  | none => []
  | some v => [(k, v)]

/-- Sorted merge-walk over two key-sorted entry lists, applying `f` keywise.
Both `diff` and `merge` of the Delete-Tracking Ordered Map are instances. -/
def walk {β : Type} (f : Option (Option β) → Option (Option β) → Option (Option β)) :
    List (Nat × Option β) → List (Nat × Option β) → List (Nat × Option β)
  | [], [] => []
  | [], e :: tb => walkEmit f e.1 none (some e.2) ++ walk f [] tb
  | e :: ta, [] => walkEmit f e.1 (some e.2) none ++ walk f ta []
  | (k1, v1) :: ta, (k2, v2) :: tb =>
    if k1 < k2 then walkEmit f k1 (some v1) none ++ walk f ta ((k2, v2) :: tb)
    else if k2 < k1 then walkEmit f k2 none (some v2) ++ walk f ((k1, v1) :: ta) tb
    else walkEmit f k1 (some v1) (some v2) ++ walk f ta tb
termination_by la lb => la.length + lb.length

namespace SortedDeleteMap

/-- Keywise rule of §4.1 `diff`: a key of the derived side that is absent from
the base or differs from it is included with the derived side's payload (a
live value, or a tombstone when the base's live entry disappeared); keys equal
on both sides are omitted. -/
def fdiff {β : Type} [DecidableEq β] (o1 o2 : Option (Option β)) : Option (Option β) :=
  if o1.join = o2.join then none else some o2.join

/-- Keywise rule of §4.1 `merge`: a diff entry wins where present (its
tombstone excluding the key from the result), otherwise the base's live value
is kept; the result carries live entries only. -/
def fmerge {β : Type} (o1 o2 : Option (Option β)) : Option (Option β) :=
  (match o2 with
   | some dv => dv
   | none => o1.join).map some

/-- Modelled from the spec (§4.1): structural diff of two Delete-Tracking
Ordered Maps. -/
def diff {β : Type} [DecidableEq β] (a b : SortedDeleteMap β) : SortedDeleteMap β :=
  ⟨walk fdiff a.entries b.entries⟩

/-- Modelled from the spec (§4.1): merge of a base map with a diff map. -/
def merge {β : Type} (a d : SortedDeleteMap β) : SortedDeleteMap β :=
  ⟨walk fmerge a.entries d.entries⟩

/-- Sorted insertion of one live entry, overwriting an equal key: the
`BTreeMap` insertion underlying the container's `FromIterator`. -/
def insertEntry {β : Type} (k : Nat) (v : Option β) :
    List (Nat × Option β) → List (Nat × Option β)
  | [] => [(k, v)]
  | (k2, v2) :: t =>
    if k < k2 then (k, v) :: (k2, v2) :: t
    else if k = k2 then (k, v) :: t
    else (k2, v2) :: insertEntry k v t

/-- Collection of `(u32, V)` pairs into a `SortedDeleteMap`, the
`collect::<SortedDeleteMap<_, _>>()` of the adapter. -/
def fromList {β : Type} (l : List (Nat × β)) : SortedDeleteMap β :=
  ⟨l.foldl (fun acc p => insertEntry p.1 (some p.2) acc) []⟩

/-- Live values of the container in key order, as iterated by `into_iter()`
during encode. -/
def liveValues {β : Type} (m : SortedDeleteMap β) : List β :=
  m.entries.filterMap (fun e => e.2)

/-- Well-formedness: keys strictly sorted (hence unique) and no tombstones —
the state of any container built by the adapter from a decoded tree. -/
def WellFormed {β : Type} (m : SortedDeleteMap β) : Prop :=
  List.Pairwise (· < ·) (m.entries.map Prod.fst) ∧ ∀ e ∈ m.entries, e.2.isSome

instance {β : Type} (m : SortedDeleteMap β) : Decidable m.WellFormed := by
  unfold WellFormed
  infer_instance

end SortedDeleteMap

/-- Lookup of a key's entry payload in an entry list (`none` = no entry,
`some none` = tombstone, `some (some v)` = live value). -/
def findE {β : Type} (l : List (Nat × Option β)) (k : Nat) : Option (Option β) :=
  (l.find? (fun e => e.1 == k)).map Prod.snd

/-- Decidable equality of `Except` results, for evaluating decode outcomes. -/
def Except.decEq {eps alpha : Type} [DecidableEq eps] [DecidableEq alpha] :
    (a b : Except eps alpha) → Decidable (a = b)
  | Except.ok x, Except.ok y => @decidable_of_iff _ _ (by simp) (inferInstanceAs (Decidable (x = y)))
  | Except.error e, Except.error e2 =>
    @decidable_of_iff _ _ (by simp) (inferInstanceAs (Decidable (e = e2)))
  | Except.ok _, Except.error _ => isFalse (fun h => Except.noConfusion h)
  | Except.error _, Except.ok _ => isFalse (fun h => Except.noConfusion h)

instance {eps alpha : Type} [DecidableEq eps] [DecidableEq alpha] :
    DecidableEq (Except eps alpha) := Except.decEq

/-- Sequencing of a fallible conversion over a list: the semantics of Rust's
`iter().map(...).collect::<Result<_>>()`, first error wins. -/
def mapME {α γ : Type} (g : α → Except UKError γ) : List α → Except UKError (List γ)
  | [] => Except.ok []
  | x :: t =>
    match g x with
    | Except.error e => Except.error e
    | Except.ok y =>
      match mapME g t with
      | Except.error e => Except.error e
      | Except.ok ys => Except.ok (y :: ys)

/-- Reading of one optional float field of the map-unit hash, as in `unit.rs`:
`hash.get(key).map(|v| Ok(v.as_float()?)).transpose()?` — an absent key gives
`none`, a present key must hold a float node. -/
def getFloatOpt (h : List (String × Byml)) (k : String) : Except UKError (Option F32) :=
  match hashGet h k with
  | none => Except.ok none
  | some v =>
    match v.as_float with
    | Except.error e => Except.error e
    | Except.ok f => Except.ok (some f)

/-- Extraction of the identifier of one objects/rails array element, as in
`unit.rs`: the element must be a hash holding a `HashId` uint node. -/
def entryId (missIdMsg : String) (obj : Byml) : Except UKError Nat :=
  match obj.as_hash with
  | Except.error e => Except.error e
  | Except.ok oh =>
    match hashGet oh "HashId" with
    | none => Except.error (UKError.MissingBymlKey missIdMsg)
    | some idn => idn.as_uint

/-- Decode of one required array-of-maps field (`Objs` or `Rails`) of a map
unit into its `SortedDeleteMap`, as in `unit.rs`: the key must be present and
hold an array; each element contributes the pair `(HashId, element)`. -/
def decodeUnitEntries (h : List (String × Byml)) (key missKeyMsg missIdMsg : String) :
    Except UKError (SortedDeleteMap Byml) :=
  match hashGet h key with
  | none => Except.error (UKError.MissingBymlKey missKeyMsg)
  | some node =>
    match node.as_array with
    | Except.error e => Except.error e
    | Except.ok arr =>
      match mapME (fun obj =>
        match entryId missIdMsg obj with
        | Except.error e => Except.error e
        | Except.ok id => Except.ok (id, obj)) arr with
      | Except.error e => Except.error e
      | Except.ok pairs => Except.ok (SortedDeleteMap.fromList pairs)

/-- Typed map-unit resource of `uk-content/src/map/unit.rs`. -/
structure MapUnit where
  pos_x : Option F32
  pos_y : Option F32
  size : Option F32
  objects : SortedDeleteMap Byml
  rails : SortedDeleteMap Byml
deriving DecidableEq

/-- Decode `TryFrom<&Byml> for MapUnit` of `unit.rs`, fields read in source
order: the three optional scalars, then `Objs`, then `Rails`. -/
def MapUnit.tryFrom (byml : Byml) : Except UKError MapUnit :=
  match byml.as_hash with
  | Except.error e => Except.error e
  | Except.ok hash =>
    match getFloatOpt hash "LocationPosX" with
    | Except.error e => Except.error e
    | Except.ok pos_x =>
      match getFloatOpt hash "LocationPosY" with
      | Except.error e => Except.error e
      | Except.ok pos_y =>
        match getFloatOpt hash "LocationSize" with
        | Except.error e => Except.error e
        | Except.ok size =>
          match decodeUnitEntries hash "Objs" "Map unit missing objs"
              "Map unit object missing hash ID" with
          | Except.error e => Except.error e
          | Except.ok objects =>
            match decodeUnitEntries hash "Rails" "Map unit missing rails"
                "Map unit rail missing hash ID" with
            | Except.error e => Except.error e
            | Except.ok rails => Except.ok ⟨pos_x, pos_y, size, objects, rails⟩

/-- Key-sorted insertion into a `Byml` hash entry list with overwrite on an
equal key: the `BTreeMap` insertion performed by `Byml`'s `FromIterator`. -/
def hinsert (k : String) (v : Byml) : List (String × Byml) → List (String × Byml)
  | [] => [(k, v)]
  | (k2, v2) :: t =>
    if strLt k k2 then (k, v) :: (k2, v2) :: t
    else if k == k2 then (k, v) :: t
    else (k2, v2) :: hinsert k v t

/-- Collection of string-keyed pairs into a `Byml` hash node. -/
def hashFrom (l : List (String × Byml)) : Byml :=
  Byml.hash (l.foldl (fun acc p => hinsert p.1 p.2 acc) [])

/-- Encode `From<MapUnit> for Byml` of `unit.rs`: the two containers
re-expanded into value-only arrays (identifiers dropped — they live inside
each value), chained with the present optional scalar fields, collected into
a hash. -/
def MapUnit.toByml (val : MapUnit) : Byml :=
  hashFrom ([("Objs", Byml.array val.objects.liveValues),
      ("Rails", Byml.array val.rails.liveValues)] ++
    ([("LocationPosX", val.pos_x), ("LocationPosY", val.pos_y),
      ("LocationSize", val.size)].filterMap
      (fun p => p.2.map (fun v => (p.1, Byml.float v)))))

/-- Structural diff of `Mergeable<Byml> for MapUnit` in `unit.rs`: scalar
fields take the other value verbatim, container fields delegate to the
Delete-Tracking Ordered Map. -/
def MapUnit.diff (a other : MapUnit) : MapUnit :=
  ⟨other.pos_x, other.pos_y, other.size,
    a.objects.diff other.objects, a.rails.diff other.rails⟩

/-- Merge of `Mergeable<Byml> for MapUnit` in `unit.rs`: scalar fields take
the diff value verbatim, container fields delegate to the Delete-Tracking
Ordered Map. -/
def MapUnit.merge (a d : MapUnit) : MapUnit :=
  ⟨d.pos_x, d.pos_y, d.size, a.objects.merge d.objects, a.rails.merge d.rails⟩

/-- Well-formedness of a map unit: both containers well-formed. -/
def MapUnit.WellFormed (m : MapUnit) : Prop :=
  m.objects.WellFormed ∧ m.rails.WellFormed

instance (m : MapUnit) : Decidable m.WellFormed := by
  unfold MapUnit.WellFormed
  infer_instance

/-- Container invariant established by decode: every entry is live and its key
is exactly the `HashId` stored inside the entry's value node. -/
def SortedDeleteMap.KeyCoherent (m : SortedDeleteMap Byml) (missIdMsg : String) : Prop :=
  ∀ e ∈ m.entries, ∃ v, e.2 = some v ∧ entryId missIdMsg v = Except.ok e.1

/-- State of any `MapUnit` produced by a successful decode: well-formed
containers whose keys agree with the embedded `HashId` fields. -/
def MapUnit.Decoded (x : MapUnit) : Prop :=
  x.WellFormed ∧ x.objects.KeyCoherent "Map unit object missing hash ID" ∧
    x.rails.KeyCoherent "Map unit rail missing hash ID"

/-- Target platform enumeration of `src/settings.rs`. -/
inductive Platform where
  | WiiU
  | Switch
deriving DecidableEq

/-- Byte order of the `roead` codec (`roead::Endian`). -/
inductive RoeadEndian where
  | Big
  | Little
deriving DecidableEq

/-- Byte order of the content codec (`uk_content::prelude::Endian`). -/
inductive UkEndian where
  | Big
  | Little
deriving DecidableEq

/-- Byte order of the resource-size-table codec (`rstb::Endian`). -/
inductive RstbEndian where
  | Big
  | Little
deriving DecidableEq

/-- `From<Platform> for roead::Endian` in `settings.rs`. -/
def Platform.toRoead : Platform → RoeadEndian
  | .WiiU => .Big
  | .Switch => .Little

/-- `From<roead::Endian> for Platform` in `settings.rs`. -/
def RoeadEndian.toPlatform : RoeadEndian → Platform
  | .Big => .WiiU
  | .Little => .Switch

/-- `From<Platform> for uk_content::prelude::Endian` in `settings.rs`. -/
def Platform.toUk : Platform → UkEndian
  | .WiiU => .Big
  | .Switch => .Little

/-- `From<uk_content::prelude::Endian> for Platform` in `settings.rs`. -/
def UkEndian.toPlatform : UkEndian → Platform
  | .Big => .WiiU
  | .Little => .Switch

/-- `From<Platform> for rstb::Endian` in `settings.rs`. -/
def Platform.toRstb : Platform → RstbEndian
  | .WiiU => .Big
  | .Switch => .Little

/-- `From<rstb::Endian> for Platform` in `settings.rs`. -/
def RstbEndian.toPlatform : RstbEndian → Platform
  | .Big => .WiiU
  | .Little => .Switch

/-- Big-endian test for the `roead` byte order, for cross-codec comparison. -/
def RoeadEndian.isBig : RoeadEndian → Bool
  | .Big => true
  | .Little => false

/-- Big-endian test for the content-codec byte order. -/
def UkEndian.isBig : UkEndian → Bool
  | .Big => true
  | .Little => false

/-- Big-endian test for the resource-size-table byte order. -/
def RstbEndian.isBig : RstbEndian → Bool
  | .Big => true
  | .Little => false

/-- Modelled from the spec: the `ActorInfo` resource of `uk-content` (its
definition is not among the provided sources) wraps a delete-tracking map from
`u32` actor hash to value node, as built by `handle_actorinfo`'s collect. -/
structure ActorInfo where
  table : SortedDeleteMap Byml
deriving DecidableEq

/-- Modelled from the spec (§4.2): `Mergeable` for `ActorInfo` delegates to
the Delete-Tracking Ordered Map. -/
def ActorInfo.merge (a d : ActorInfo) : ActorInfo :=
  ⟨a.table.merge d.table⟩

/-- Typed mergeable view returned by `as_mergeable()`: the `ActorInfo` variant
of `MergeableResource`, with every other kind of the closed set collapsed into
one symbol (only the ActorInfo arm is examined by `handle_actorinfo`). -/
inductive MergeableResource where
  | ActorInfo (info : ActorInfo)
  | otherKind
deriving DecidableEq

/-- Vanilla resource fetched from the dump, observed by the pipeline only
through its `as_mergeable()` view. -/
structure DumpResource where
  mergeableView : Option MergeableResource
deriving DecidableEq

/-- Modelled from the spec (§6): the platform's resource dump reader, observed
here only through `get_data("Actor/ActorInfo.product.sbyml")`. -/
structure ResourceReader where
  actorInfoData : Except String DumpResource

/-- Game language enumeration `Language` of `src/settings.rs` (named apart
here to avoid clashing with Mathlib). -/
inductive UkLanguage where
  | USen
  | EUen
  | USfr
  | USes
  | EUde
  | EUes
  | EUfr
  | EUit
  | EUnl
  | EUru
  | CNzh
  | JPja
  | KRko
  | TWzh

/-- Deployment method enumeration of `src/settings.rs`. -/
inductive DeployMethod where
  | Copy
  | HardLink
  | Symlink

/-- Deployment configuration of `src/settings.rs`. -/
structure DeployConfig where
  output : String
  method : DeployMethod
  auto : Bool

/-- Per-platform settings of `src/settings.rs`. -/
structure PlatformSettings where
  dump : ResourceReader
  deploy_config : Option DeployConfig
  language : UkLanguage

/-- Settings of `src/settings.rs` (the persisted fields). -/
structure Settings where
  current_mode : Platform
  storage_dir : String
  unpack_mods : Bool
  wiiu_config : Option PlatformSettings
  switch_config : Option PlatformSettings
  check_updates : Bool
  show_changelog : Bool

/-- `Settings::dump` of `settings.rs`: the dump of the platform config
matching the current mode, when that config is present. -/
def Settings.dump (s : Settings) : Option ResourceReader :=
  match s.current_mode with
  | Platform.Switch => s.switch_config.map (fun c => c.dump)
  | Platform.WiiU => s.wiiu_config.map (fun c => c.dump)

/-- `Settings::platform_config` of `settings.rs`. -/
def Settings.platform_config (s : Settings) : Option PlatformSettings :=
  match s.current_mode with
  | Platform.Switch => s.switch_config
  | Platform.WiiU => s.wiiu_config

/-- Digit-list accumulator for `parseU32`. -/
def parseU32Chars : List Char → Nat → Option Nat
  | [], acc => some acc
  | c :: cs, acc =>
    if c.isDigit then parseU32Chars cs (acc * 10 + (c.toNat - 48)) else none

/-- Rust `str::parse::<u32>` applied to a patch key: decimal digits forming a
value within the `u32` range. -/
def parseU32 (s : String) : Option Nat :=
  match s.data with
  | [] => none
  | c :: cs =>
    match parseU32Chars (c :: cs) 0 with
    | none => none
    | some n => if n < 4294967296 then some n else none

/-- Option-monad sequencing over a list: the key-parse collect of
`handle_actorinfo` (first failure wins; the error payload of the key parse is
never observed, so `Option` suffices). -/
def mapMO {α γ : Type} (g : α → Option γ) : List α → Option (List γ)
  | [] => some []
  | x :: t =>
    match g x with
    | none => none
    | some y =>
      match mapMO g t with
      | none => none
      | some ys => some (y :: ys)

/-- Observable effects of one `handle_actorinfo` run: the dump fetch
(`get_data`) and the artifact write (with the merged payload it wrote). -/
inductive BnpEvent where
  | fetched
  | wroteActorInfo (merged : ActorInfo)
deriving DecidableEq

/-- Environment of one `handle_actorinfo` run: the patch log's content when
the file exists (a successfully read file; I/O is external), the external
text parser `Byml::from_text`, and the settings snapshot. -/
structure BnpEnv where
  patchFile : Option String
  parseText : String → Option Byml
  settings : Settings

/-- `BnpConverter::handle_actorinfo` of `uk-manager/src/bnp/actorinfo.rs`:
skip when the patch log is absent; otherwise parse the log as a map keyed by
`u32` actor hashes, require a dump for the current platform, fetch the vanilla
ActorInfo resource, and — only when the fetched resource's mergeable view is
an ActorInfo — write the merged, re-encoded artifact. Returns the events
performed in order, and the result. -/
def handle_actorinfo (env : BnpEnv) : List BnpEvent × Except String Unit :=
  match env.patchFile with
  | none => ([], Except.ok ())
  | some text =>
    match env.parseText text with
    | none => ([], Except.error "Failed to parse actorinfo log")
    | some byml =>
      match byml with
      | Byml.hash entries =>
        match mapMO (fun p => (parseU32 p.1).map (fun n => (n, p.2))) entries with
        | none => ([], Except.error "invalid actorinfo key")
        | some pairs =>
          let diff := ActorInfo.mk (SortedDeleteMap.fromList pairs)
          match env.settings.dump with
          | none => ([], Except.error "No dump for current platform")
          | some reader =>
            match reader.actorInfoData with
            | Except.error e => ([BnpEvent.fetched], Except.error e)
            | Except.ok res =>
              match res.mergeableView with
              | some (MergeableResource.ActorInfo info) =>
                ([BnpEvent.fetched, BnpEvent.wroteActorInfo (info.merge diff)],
                  Except.ok ())
              | _ => ([BnpEvent.fetched], Except.ok ())
      | _ => ([], Except.error "Invalid actorinfo log: not a map")


/- Definitions above; theorems below. -/

theorem findE_nil {β : Type} (k : Nat) : findE ([] : List (Nat × Option β)) k = none := rfl

theorem findE_cons {β : Type} (e : Nat × Option β) (t : List (Nat × Option β)) (k : Nat) :
    findE (e :: t) k = if e.1 = k then some e.2 else findE t k := by
  by_cases h : e.1 = k <;> simp [findE, List.find?_cons, h]

theorem mem_keys_of_findE {β : Type} {l : List (Nat × Option β)} {k : Nat} {ov : Option β}
    (h : findE l k = some ov) : k ∈ l.map Prod.fst := by
  induction l with
  | nil => simp [findE_nil] at h
  | cons e t ih =>
    rw [findE_cons] at h
    by_cases he : e.1 = k
    · simp [he]
    · rw [if_neg he] at h
      simp [ih h]

theorem findE_eq_none {β : Type} {l : List (Nat × Option β)} {k : Nat}
    (h : k ∉ l.map Prod.fst) : findE l k = none := by
  cases hf : findE l k with
  | none => rfl
  | some ov => exact absurd (mem_keys_of_findE hf) h

theorem keys_walkEmit {β : Type} {f : Option (Option β) → Option (Option β) → Option (Option β)}
    {k1 : Nat} {o1 o2 : Option (Option β)} {k : Nat}
    (h : k ∈ (walkEmit f k1 o1 o2).map Prod.fst) : k = k1 := by
  unfold walkEmit at h
  split at h
  · simp at h
  · simpa using h

theorem mem_walkEmit {β : Type} {f : Option (Option β) → Option (Option β) → Option (Option β)}
    {k1 : Nat} {o1 o2 : Option (Option β)} {e : Nat × Option β}
    (h : e ∈ walkEmit f k1 o1 o2) : f o1 o2 = some e.2 := by
  unfold walkEmit at h
  split at h
  · simp at h
  · simp at h
    subst h
    assumption

theorem keys_walk_mem {β : Type} (f : Option (Option β) → Option (Option β) → Option (Option β)) :
    ∀ (la lb : List (Nat × Option β)) (k : Nat),
      k ∈ (walk f la lb).map Prod.fst → k ∈ la.map Prod.fst ∨ k ∈ lb.map Prod.fst := by
  intro la lb
  induction la, lb using walk.induct f with
  | case1 => intro k h; rw [walk] at h; simp at h
  | case2 e tb ih =>
    intro k h
    rw [walk] at h
    simp only [List.map_append, List.mem_append] at h
    rcases h with h | h
    · exact Or.inr (by simp [keys_walkEmit h])
    · rcases ih k h with h2 | h2
      · simp at h2
      · exact Or.inr (by simp [h2])
  | case3 e ta ih =>
    intro k h
    rw [walk] at h
    simp only [List.map_append, List.mem_append] at h
    rcases h with h | h
    · exact Or.inl (by simp [keys_walkEmit h])
    · rcases ih k h with h2 | h2
      · exact Or.inl (by simp [h2])
      · simp at h2
  | case4 k1 v1 ta k2 v2 tb h1 ih =>
    intro k h
    rw [walk, if_pos h1] at h
    simp only [List.map_append, List.mem_append] at h
    rcases h with h | h
    · exact Or.inl (by simp [keys_walkEmit h])
    · rcases ih k h with h2 | h2
      · exact Or.inl (by simp [h2])
      · exact Or.inr h2
  | case5 k1 v1 ta k2 v2 tb h1 h2 ih =>
    intro k h
    rw [walk, if_neg h1, if_pos h2] at h
    simp only [List.map_append, List.mem_append] at h
    rcases h with h | h
    · exact Or.inr (by simp [keys_walkEmit h])
    · rcases ih k h with h3 | h3
      · exact Or.inl h3
      · exact Or.inr (by simp [h3])
  | case6 k1 v1 ta k2 v2 tb h1 h2 ih =>
    intro k h
    rw [walk, if_neg h1, if_neg h2] at h
    simp only [List.map_append, List.mem_append] at h
    rcases h with h | h
    · exact Or.inl (by simp [keys_walkEmit h])
    · rcases ih k h with h3 | h3
      · exact Or.inl (by simp [h3])
      · exact Or.inr (by simp [h3])

theorem findE_emit_append_none {β : Type}
    {f : Option (Option β) → Option (Option β) → Option (Option β)}
    {k1 : Nat} {o1 o2 : Option (Option β)} (hv : f o1 o2 = none)
    (rest : List (Nat × Option β)) (k : Nat) :
    findE (walkEmit f k1 o1 o2 ++ rest) k = findE rest k := by
  unfold walkEmit
  rw [hv]
  simp

theorem findE_emit_append_some {β : Type}
    {f : Option (Option β) → Option (Option β) → Option (Option β)}
    {k1 : Nat} {o1 o2 : Option (Option β)} {v : Option β} (hv : f o1 o2 = some v)
    (rest : List (Nat × Option β)) (k : Nat) :
    findE (walkEmit f k1 o1 o2 ++ rest) k = if k1 = k then some v else findE rest k := by
  unfold walkEmit
  rw [hv]
  simp [findE_cons]

theorem findE_walk {β : Type} (f : Option (Option β) → Option (Option β) → Option (Option β))
    (hf : f none none = none) :
    ∀ (la lb : List (Nat × Option β)),
      List.Pairwise (· < ·) (la.map Prod.fst) →
      List.Pairwise (· < ·) (lb.map Prod.fst) →
      ∀ k, findE (walk f la lb) k = f (findE la k) (findE lb k) := by
  intro la lb
  induction la, lb using walk.induct f with
  | case1 =>
    intro _ _ k
    rw [walk]
    simp [findE_nil, hf]
  | case2 e tb ih =>
    intro ha hb k
    rw [List.map_cons, List.pairwise_cons] at hb
    have hrec : ∀ k2, findE (walk f [] tb) k2 = f none (findE tb k2) := by
      intro k2
      rw [ih (by simp) hb.2 k2, findE_nil]
    rw [walk]
    cases hv : f none (some e.2) with
    | none =>
      rw [findE_emit_append_none hv, hrec]
      by_cases hk : e.1 = k
      · subst hk
        have ht : findE tb e.1 = none := findE_eq_none (fun hm => lt_irrefl _ (hb.1 _ hm))
        simp [findE_cons, findE_nil, ht, hf, hv]
      · simp [findE_cons, findE_nil, hk]
    | some v =>
      rw [findE_emit_append_some hv]
      by_cases hk : e.1 = k
      · subst hk
        simp [findE_cons, findE_nil, hv]
      · rw [if_neg hk, hrec]
        simp [findE_cons, findE_nil, hk]
  | case3 e ta ih =>
    intro ha hb k
    rw [List.map_cons, List.pairwise_cons] at ha
    have hrec : ∀ k2, findE (walk f ta []) k2 = f (findE ta k2) none := by
      intro k2
      rw [ih ha.2 (by simp) k2, findE_nil]
    rw [walk]
    cases hv : f (some e.2) none with
    | none =>
      rw [findE_emit_append_none hv, hrec]
      by_cases hk : e.1 = k
      · subst hk
        have ht : findE ta e.1 = none := findE_eq_none (fun hm => lt_irrefl _ (ha.1 _ hm))
        simp [findE_cons, findE_nil, ht, hf, hv]
      · simp [findE_cons, findE_nil, hk]
    | some v =>
      rw [findE_emit_append_some hv]
      by_cases hk : e.1 = k
      · subst hk
        simp [findE_cons, findE_nil, hv]
      · rw [if_neg hk, hrec]
        simp [findE_cons, findE_nil, hk]
  | case4 k1 v1 ta k2 v2 tb h1 ih =>
    intro ha hb k
    rw [List.map_cons, List.pairwise_cons] at ha
    have hbk : findE ((k2, v2) :: tb) k1 = none := by
      refine findE_eq_none (fun hm => ?hm1)
      rw [List.map_cons, List.pairwise_cons] at hb
      rcases List.mem_cons.mp hm with hx | hx
      · omega
      · have := hb.1 _ hx
        omega
    have hrec : ∀ k3, findE (walk f ta ((k2, v2) :: tb)) k3 =
        f (findE ta k3) (findE ((k2, v2) :: tb) k3) := fun k3 => ih ha.2 hb k3
    rw [walk, if_pos h1]
    cases hv : f (some v1) none with
    | none =>
      rw [findE_emit_append_none hv, hrec]
      by_cases hk : k1 = k
      · subst hk
        have ht : findE ta k1 = none := findE_eq_none (fun hm => lt_irrefl _ (ha.1 _ hm))
        rw [ht, hbk]
        simp [findE_cons, hf, hv]
      · simp [findE_cons, hk]
    | some v =>
      rw [findE_emit_append_some hv]
      by_cases hk : k1 = k
      · subst hk
        rw [if_pos rfl, hbk]
        simp [findE_cons, hv]
      · rw [if_neg hk, hrec]
        simp [findE_cons, hk]
  | case5 k1 v1 ta k2 v2 tb h1 h2 ih =>
    intro ha hb k
    rw [List.map_cons, List.pairwise_cons] at hb
    have hak : findE ((k1, v1) :: ta) k2 = none := by
      refine findE_eq_none (fun hm => ?hm2)
      rw [List.map_cons, List.pairwise_cons] at ha
      rcases List.mem_cons.mp hm with hx | hx
      · omega
      · have := ha.1 _ hx
        omega
    have hrec : ∀ k3, findE (walk f ((k1, v1) :: ta) tb) k3 =
        f (findE ((k1, v1) :: ta) k3) (findE tb k3) := fun k3 => ih ha hb.2 k3
    rw [walk, if_neg h1, if_pos h2]
    cases hv : f none (some v2) with
    | none =>
      rw [findE_emit_append_none hv, hrec]
      by_cases hk : k2 = k
      · subst hk
        have ht : findE tb k2 = none := findE_eq_none (fun hm => lt_irrefl _ (hb.1 _ hm))
        rw [ht, hak]
        simp [findE_cons, hf, hv]
      · simp [findE_cons, hk]
    | some v =>
      rw [findE_emit_append_some hv]
      by_cases hk : k2 = k
      · subst hk
        rw [if_pos rfl, hak]
        simp [findE_cons, hv]
      · rw [if_neg hk, hrec]
        simp [findE_cons, hk]
  | case6 k1 v1 ta k2 v2 tb h1 h2 ih =>
    intro ha hb k
    have hk12 : k1 = k2 := by omega
    subst hk12
    rw [List.map_cons, List.pairwise_cons] at ha
    rw [List.map_cons, List.pairwise_cons] at hb
    have hrec : ∀ k3, findE (walk f ta tb) k3 = f (findE ta k3) (findE tb k3) :=
      fun k3 => ih ha.2 hb.2 k3
    rw [walk, if_neg h1, if_neg h2]
    cases hv : f (some v1) (some v2) with
    | none =>
      rw [findE_emit_append_none hv, hrec]
      by_cases hk : k1 = k
      · subst hk
        have hta : findE ta k1 = none := findE_eq_none (fun hm => lt_irrefl _ (ha.1 _ hm))
        have htb : findE tb k1 = none := findE_eq_none (fun hm => lt_irrefl _ (hb.1 _ hm))
        rw [hta, htb]
        simp [findE_cons, hf, hv]
      · simp [findE_cons, hk]
    | some v =>
      rw [findE_emit_append_some hv]
      by_cases hk : k1 = k
      · subst hk
        simp [findE_cons, hv]
      · rw [if_neg hk, hrec]
        simp [findE_cons, hk]

theorem pairwise_keys_walkEmit {β : Type}
    {f : Option (Option β) → Option (Option β) → Option (Option β)}
    {k1 : Nat} {o1 o2 : Option (Option β)} :
    List.Pairwise (· < ·) ((walkEmit f k1 o1 o2).map Prod.fst) := by
  unfold walkEmit
  split <;> simp

theorem walk_sorted {β : Type} (f : Option (Option β) → Option (Option β) → Option (Option β)) :
    ∀ (la lb : List (Nat × Option β)),
      List.Pairwise (· < ·) (la.map Prod.fst) →
      List.Pairwise (· < ·) (lb.map Prod.fst) →
      List.Pairwise (· < ·) ((walk f la lb).map Prod.fst) := by
  intro la lb
  induction la, lb using walk.induct f with
  | case1 =>
    intro _ _
    rw [walk]
    simp
  | case2 e tb ih =>
    intro ha hb
    rw [List.map_cons, List.pairwise_cons] at hb
    rw [walk, List.map_append, List.pairwise_append]
    refine ⟨pairwise_keys_walkEmit, ih (by simp) hb.2, ?_⟩
    intro x hx y hy
    rw [keys_walkEmit hx]
    rcases keys_walk_mem f [] tb y hy with hm | hm
    · simp at hm
    · exact hb.1 _ hm
  | case3 e ta ih =>
    intro ha hb
    rw [List.map_cons, List.pairwise_cons] at ha
    rw [walk, List.map_append, List.pairwise_append]
    refine ⟨pairwise_keys_walkEmit, ih ha.2 (by simp), ?_⟩
    intro x hx y hy
    rw [keys_walkEmit hx]
    rcases keys_walk_mem f ta [] y hy with hm | hm
    · exact ha.1 _ hm
    · simp at hm
  | case4 k1 v1 ta k2 v2 tb h1 ih =>
    intro ha hb
    rw [List.map_cons, List.pairwise_cons] at ha
    rw [walk, if_pos h1, List.map_append, List.pairwise_append]
    refine ⟨pairwise_keys_walkEmit, ih ha.2 hb, ?_⟩
    intro x hx y hy
    rw [keys_walkEmit hx]
    rcases keys_walk_mem f ta ((k2, v2) :: tb) y hy with hm | hm
    · exact ha.1 _ hm
    · rw [List.map_cons, List.pairwise_cons] at hb
      rcases List.mem_cons.mp hm with hm2 | hm2
      · omega
      · have := hb.1 _ hm2
        omega
  | case5 k1 v1 ta k2 v2 tb h1 h2 ih =>
    intro ha hb
    rw [List.map_cons, List.pairwise_cons] at hb
    rw [walk, if_neg h1, if_pos h2, List.map_append, List.pairwise_append]
    refine ⟨pairwise_keys_walkEmit, ih ha hb.2, ?_⟩
    intro x hx y hy
    rw [keys_walkEmit hx]
    rcases keys_walk_mem f ((k1, v1) :: ta) tb y hy with hm | hm
    · rw [List.map_cons, List.pairwise_cons] at ha
      rcases List.mem_cons.mp hm with hm2 | hm2
      · omega
      · have := ha.1 _ hm2
        omega
    · exact hb.1 _ hm
  | case6 k1 v1 ta k2 v2 tb h1 h2 ih =>
    intro ha hb
    have hk12 : k1 = k2 := by omega
    subst hk12
    rw [List.map_cons, List.pairwise_cons] at ha
    rw [List.map_cons, List.pairwise_cons] at hb
    rw [walk, if_neg h1, if_neg h2, List.map_append, List.pairwise_append]
    refine ⟨pairwise_keys_walkEmit, ih ha.2 hb.2, ?_⟩
    intro x hx y hy
    rw [keys_walkEmit hx]
    rcases keys_walk_mem f ta tb y hy with hm | hm
    · exact ha.1 _ hm
    · exact hb.1 _ hm

theorem walk_emitted {β : Type} (f : Option (Option β) → Option (Option β) → Option (Option β)) :
    ∀ (la lb : List (Nat × Option β)) (e : Nat × Option β),
      e ∈ walk f la lb → ∃ o1 o2, f o1 o2 = some e.2 := by
  intro la lb
  induction la, lb using walk.induct f with
  | case1 =>
    intro e he
    rw [walk] at he
    simp at he
  | case2 e2 tb ih =>
    intro e he
    rw [walk] at he
    rcases List.mem_append.mp he with h | h
    · exact ⟨_, _, mem_walkEmit h⟩
    · exact ih e h
  | case3 e2 ta ih =>
    intro e he
    rw [walk] at he
    rcases List.mem_append.mp he with h | h
    · exact ⟨_, _, mem_walkEmit h⟩
    · exact ih e h
  | case4 k1 v1 ta k2 v2 tb h1 ih =>
    intro e he
    rw [walk, if_pos h1] at he
    rcases List.mem_append.mp he with h | h
    · exact ⟨_, _, mem_walkEmit h⟩
    · exact ih e h
  | case5 k1 v1 ta k2 v2 tb h1 h2 ih =>
    intro e he
    rw [walk, if_neg h1, if_pos h2] at he
    rcases List.mem_append.mp he with h | h
    · exact ⟨_, _, mem_walkEmit h⟩
    · exact ih e h
  | case6 k1 v1 ta k2 v2 tb h1 h2 ih =>
    intro e he
    rw [walk, if_neg h1, if_neg h2] at he
    rcases List.mem_append.mp he with h | h
    · exact ⟨_, _, mem_walkEmit h⟩
    · exact ih e h

theorem ext_sorted {β : Type} :
    ∀ (l l2 : List (Nat × Option β)),
      List.Pairwise (· < ·) (l.map Prod.fst) →
      List.Pairwise (· < ·) (l2.map Prod.fst) →
      (∀ k, findE l k = findE l2 k) → l = l2 := by
  intro l
  induction l with
  | nil =>
    intro l2 _ h2 hk
    cases l2 with
    | nil => rfl
    | cons e t =>
      have := hk e.1
      rw [findE_nil, findE_cons, if_pos rfl] at this
      exact absurd this (by simp)
  | cons e t ih =>
    intro l2 ha hb hk
    cases l2 with
    | nil =>
      have := hk e.1
      rw [findE_nil, findE_cons, if_pos rfl] at this
      exact absurd this (by simp)
    | cons e2 t2 =>
      obtain ⟨ke, ve⟩ := e
      obtain ⟨ke2, ve2⟩ := e2
      rw [List.map_cons, List.pairwise_cons] at ha hb
      have hmem : ke ∈ (⟨ke2, ve2⟩ :: t2 : List (Nat × Option β)).map Prod.fst := by
        refine @mem_keys_of_findE _ _ _ ve ?_
        rw [← hk ke, findE_cons, if_pos rfl]
      have hmem2 : ke2 ∈ (⟨ke, ve⟩ :: t : List (Nat × Option β)).map Prod.fst := by
        refine @mem_keys_of_findE _ _ _ ve2 ?_
        rw [hk ke2, findE_cons, if_pos rfl]
      have hkk : ke = ke2 := by
        rcases List.mem_cons.mp hmem with h | h
        · simpa using h
        · rcases List.mem_cons.mp hmem2 with h2 | h2
          · simp at h2
            omega
          · have := hb.1 _ h
            have := ha.1 _ h2
            simp at h h2
            omega
      subst hkk
      have hv : ve = ve2 := by
        have := hk ke
        rw [findE_cons, if_pos rfl, findE_cons, if_pos rfl] at this
        simpa using this
      subst hv
      have ht : t = t2 := by
        apply ih t2 ha.2 hb.2
        intro k
        by_cases hke : ke = k
        · subst hke
          rw [findE_eq_none (fun hm => lt_irrefl _ (ha.1 _ hm)),
            findE_eq_none (fun hm => lt_irrefl _ (hb.1 _ hm))]
        · have := hk k
          rw [findE_cons, if_neg hke, findE_cons, if_neg hke] at this
          exact this
      rw [ht]

theorem fdiff_none_none {β : Type} [DecidableEq β] :
    SortedDeleteMap.fdiff (none : Option (Option β)) none = none := by
  simp [SortedDeleteMap.fdiff]

theorem fmerge_none_none {β : Type} :
    SortedDeleteMap.fmerge (none : Option (Option β)) none = none := rfl

/-- Round-trip law of the Delete-Tracking Ordered Map (§4.1 of the spec):
merging a base with the diff from that base to a derived map recovers the
derived map exactly, for well-formed maps. -/
theorem SortedDeleteMap.merge_diff_eq {β : Type} [DecidableEq β]
    (a b : SortedDeleteMap β) (ha : a.WellFormed) (hb : b.WellFormed) :
    a.merge (a.diff b) = b := by
  obtain ⟨ea⟩ := a
  obtain ⟨eb⟩ := b
  obtain ⟨ha1, _⟩ := ha
  obtain ⟨hb1, hb2⟩ := hb
  unfold merge diff
  congr 1
  have hd : List.Pairwise (· < ·) ((walk fdiff ea eb).map Prod.fst) :=
    walk_sorted fdiff ea eb ha1 hb1
  apply ext_sorted
  · exact walk_sorted fmerge ea (walk fdiff ea eb) ha1 hd
  · exact hb1
  intro k
  rw [findE_walk fmerge fmerge_none_none ea _ ha1 hd k,
    findE_walk fdiff fdiff_none_none ea eb ha1 hb1 k]
  have hobshape : findE eb k = (findE eb k).join.map some := by
    cases hfb : findE eb k with
    | none => rfl
    | some ov =>
      have hmem := hfb
      unfold findE at hmem
      cases hfind : eb.find? (fun e => e.1 == k) with
      | none => rw [hfind] at hmem; simp at hmem
      | some e =>
        rw [hfind] at hmem
        simp at hmem
        have he : e ∈ eb := List.mem_of_find?_eq_some hfind
        have := hb2 e he
        cases hov : e.2 with
        | none => rw [hov] at this; simp at this
        | some v =>
          rw [← hmem, hov]
          rfl
  unfold fdiff fmerge
  by_cases he : (findE ea k).join = (findE eb k).join
  · rw [if_pos he, he]
    exact hobshape.symm
  · rw [if_neg he]
    exact hobshape.symm

theorem mem_keys_insertEntry {β : Type} {k : Nat} {v : Option β} :
    ∀ {l : List (Nat × Option β)} {x : Nat},
      x ∈ (SortedDeleteMap.insertEntry k v l).map Prod.fst → x = k ∨ x ∈ l.map Prod.fst := by
  intro l
  induction l with
  | nil =>
    intro x hx
    simp [SortedDeleteMap.insertEntry] at hx
    exact Or.inl hx
  | cons e t ih =>
    intro x hx
    obtain ⟨k2, v2⟩ := e
    unfold SortedDeleteMap.insertEntry at hx
    by_cases h1 : k < k2
    · rw [if_pos h1, List.map_cons] at hx
      rcases List.mem_cons.mp hx with h | h
      · exact Or.inl h
      · exact Or.inr h
    · rw [if_neg h1] at hx
      by_cases h2 : k = k2
      · rw [if_pos h2, List.map_cons] at hx
        rcases List.mem_cons.mp hx with h | h
        · exact Or.inl h
        · rw [List.map_cons]
          exact Or.inr (List.mem_cons_of_mem _ h)
      · rw [if_neg h2, List.map_cons] at hx
        rcases List.mem_cons.mp hx with h | h
        · rw [List.map_cons]
          exact Or.inr (by rw [h]; exact List.mem_cons_self _ _)
        · rcases ih h with h3 | h3
          · exact Or.inl h3
          · rw [List.map_cons]
            exact Or.inr (List.mem_cons_of_mem _ h3)

theorem mem_insertEntry {β : Type} {k : Nat} {v : Option β} :
    ∀ {l : List (Nat × Option β)} {e : Nat × Option β},
      e ∈ SortedDeleteMap.insertEntry k v l → e = (k, v) ∨ e ∈ l := by
  intro l
  induction l with
  | nil =>
    intro e he
    simp [SortedDeleteMap.insertEntry] at he
    exact Or.inl he
  | cons e2 t ih =>
    intro e he
    obtain ⟨k2, v2⟩ := e2
    unfold SortedDeleteMap.insertEntry at he
    by_cases h1 : k < k2
    · rw [if_pos h1] at he
      rcases List.mem_cons.mp he with h | h
      · exact Or.inl h
      · exact Or.inr h
    · rw [if_neg h1] at he
      by_cases h2 : k = k2
      · rw [if_pos h2] at he
        rcases List.mem_cons.mp he with h | h
        · exact Or.inl h
        · exact Or.inr (List.mem_cons_of_mem _ h)
      · rw [if_neg h2] at he
        rcases List.mem_cons.mp he with h | h
        · exact Or.inr (by rw [h]; exact List.mem_cons_self _ _)
        · rcases ih h with h3 | h3
          · exact Or.inl h3
          · exact Or.inr (List.mem_cons_of_mem _ h3)

theorem insertEntry_sorted {β : Type} {k : Nat} {v : Option β} :
    ∀ {l : List (Nat × Option β)},
      List.Pairwise (· < ·) (l.map Prod.fst) →
      List.Pairwise (· < ·) ((SortedDeleteMap.insertEntry k v l).map Prod.fst) := by
  intro l
  induction l with
  | nil =>
    intro _
    simp [SortedDeleteMap.insertEntry]
  | cons e t ih =>
    intro hl
    obtain ⟨k2, v2⟩ := e
    rw [List.map_cons, List.pairwise_cons] at hl
    unfold SortedDeleteMap.insertEntry
    by_cases h1 : k < k2
    · rw [if_pos h1, List.map_cons, List.pairwise_cons]
      constructor
      · intro x hx
        rw [List.map_cons] at hx
        rcases List.mem_cons.mp hx with h | h
        · show k < x
          simp at h
          omega
        · have := hl.1 _ h
          show k < x
          omega
      · rw [List.map_cons, List.pairwise_cons]
        exact hl
    · rw [if_neg h1]
      by_cases h2 : k = k2
      · rw [if_pos h2, List.map_cons, List.pairwise_cons]
        exact ⟨fun x hx => h2 ▸ hl.1 x hx, hl.2⟩
      · rw [if_neg h2, List.map_cons, List.pairwise_cons]
        constructor
        · intro x hx
          rcases mem_keys_insertEntry hx with h | h
          · show k2 < x
            omega
          · exact hl.1 _ h
        · exact ih hl.2

theorem insertEntry_append {β : Type} {k : Nat} {v : Option β} :
    ∀ {l : List (Nat × Option β)},
      (∀ x ∈ l.map Prod.fst, x < k) →
      SortedDeleteMap.insertEntry k v l = l ++ [(k, v)] := by
  intro l
  induction l with
  | nil => intro _; rfl
  | cons e t ih =>
    intro hb
    obtain ⟨k2, v2⟩ := e
    have hk2 : k2 < k := hb k2 (by simp)
    unfold SortedDeleteMap.insertEntry
    rw [if_neg (by omega), if_neg (by omega)]
    rw [ih (fun x hx => hb x (by simp [hx]))]
    simp

theorem fromList_mem {β : Type} :
    ∀ (l : List (Nat × β)) (e : Nat × Option β),
      e ∈ (SortedDeleteMap.fromList l).entries → ∃ v, e.2 = some v ∧ (e.1, v) ∈ l := by
  have hgen : ∀ (l : List (Nat × β)) (acc : List (Nat × Option β)) (e : Nat × Option β),
      e ∈ l.foldl (fun acc2 p => SortedDeleteMap.insertEntry p.1 (some p.2) acc2) acc →
      e ∈ acc ∨ ∃ v, e.2 = some v ∧ (e.1, v) ∈ l := by
    intro l
    induction l with
    | nil =>
      intro acc e he
      exact Or.inl he
    | cons p t ih =>
      intro acc e he
      rw [List.foldl_cons] at he
      rcases ih _ e he with h | h
      · rcases mem_insertEntry h with h2 | h2
        · right
          refine ⟨p.2, by rw [h2], ?_⟩
          rw [h2]
          simp
        · exact Or.inl h2
      · right
        obtain ⟨v, hv1, hv2⟩ := h
        exact ⟨v, hv1, List.mem_cons_of_mem _ hv2⟩
  intro l e he
  rcases hgen l [] e he with h | h
  · simp at h
  · exact h

theorem fromList_sorted {β : Type} (l : List (Nat × β)) :
    List.Pairwise (· < ·) ((SortedDeleteMap.fromList l).entries.map Prod.fst) := by
  have hgen : ∀ (l2 : List (Nat × β)) (acc : List (Nat × Option β)),
      List.Pairwise (· < ·) (acc.map Prod.fst) →
      List.Pairwise (· < ·)
        ((l2.foldl (fun acc2 p => SortedDeleteMap.insertEntry p.1 (some p.2) acc2) acc).map
          Prod.fst) := by
    intro l2
    induction l2 with
    | nil => intro acc h; exact h
    | cons p t ih =>
      intro acc h
      rw [List.foldl_cons]
      exact ih _ (insertEntry_sorted h)
  exact hgen l [] (by simp)

theorem fromList_wf {β : Type} (l : List (Nat × β)) :
    (SortedDeleteMap.fromList l).WellFormed := by
  refine ⟨fromList_sorted l, ?_⟩
  intro e he
  obtain ⟨v, hv, _⟩ := fromList_mem l e he
  rw [hv]
  rfl

theorem fromList_sorted_input {β : Type} :
    ∀ (l : List (Nat × β)),
      List.Pairwise (· < ·) (l.map Prod.fst) →
      (SortedDeleteMap.fromList l).entries = l.map (fun p => (p.1, some p.2)) := by
  have hgen : ∀ (l : List (Nat × β)) (acc : List (Nat × Option β)),
      (∀ x ∈ acc.map Prod.fst, ∀ y ∈ l.map Prod.fst, x < y) →
      List.Pairwise (· < ·) (l.map Prod.fst) →
      l.foldl (fun acc2 p => SortedDeleteMap.insertEntry p.1 (some p.2) acc2) acc =
        acc ++ l.map (fun p => (p.1, some p.2)) := by
    intro l
    induction l with
    | nil =>
      intro acc _ _
      simp
    | cons p t ih =>
      intro acc hcross hl
      rw [List.map_cons, List.pairwise_cons] at hl
      rw [List.foldl_cons,
        insertEntry_append (fun x hx => hcross x hx p.1 (by simp)),
        ih (acc ++ [(p.1, some p.2)]) ?_ hl.2]
      · simp
      · intro x hx y hy
        rw [List.map_append, List.mem_append] at hx
        rcases hx with hx | hx
        · have hple : p.1 < y := hl.1 y hy
          have := hcross x hx p.1 (by simp)
          omega
        · simp at hx
          rw [hx]
          exact hl.1 y hy
  intro l hl
  unfold SortedDeleteMap.fromList
  rw [hgen l [] (by simp) hl]
  simp

theorem mapME_ok_of_forall {α γ : Type} (g : α → Except UKError γ) (h : α → γ) :
    ∀ (l : List α), (∀ x ∈ l, g x = Except.ok (h x)) → mapME g l = Except.ok (l.map h) := by
  intro l
  induction l with
  | nil => intro _; rfl
  | cons x t ih =>
    intro hall
    unfold mapME
    rw [hall x (by simp), ih (fun y hy => hall y (by simp [hy]))]
    simp

theorem mapME_ok_mem {α γ : Type} (g : α → Except UKError γ) :
    ∀ (l : List α) (ys : List γ), mapME g l = Except.ok ys →
      ∀ y ∈ ys, ∃ x ∈ l, g x = Except.ok y := by
  intro l
  induction l with
  | nil =>
    intro ys hys y hy
    unfold mapME at hys
    cases hys
    simp at hy
  | cons x t ih =>
    intro ys hys y hy
    unfold mapME at hys
    cases hgx : g x with
    | error e => rw [hgx] at hys; exact absurd hys (by simp)
    | ok y2 =>
      rw [hgx] at hys
      cases hrec : mapME g t with
      | error e => rw [hrec] at hys; exact absurd hys (by simp)
      | ok ys2 =>
        rw [hrec] at hys
        simp at hys
        subst hys
        rcases List.mem_cons.mp hy with h | h
        · exact ⟨x, by simp, by rw [hgx, h]⟩
        · obtain ⟨x2, hx2, hg2⟩ := ih ys2 hrec y h
          exact ⟨x2, by simp [hx2], hg2⟩

theorem SortedDeleteMap.entries_ext {β : Type} {a b : SortedDeleteMap β}
    (h : a.entries = b.entries) : a = b := by
  cases a
  cases b
  simpa using h

theorem toByml_spec (x : MapUnit) :
    ∃ H, x.toByml = Byml.hash H ∧
      hashGet H "Objs" = some (Byml.array x.objects.liveValues) ∧
      hashGet H "Rails" = some (Byml.array x.rails.liveValues) ∧
      hashGet H "LocationPosX" = x.pos_x.map Byml.float ∧
      hashGet H "LocationPosY" = x.pos_y.map Byml.float ∧
      hashGet H "LocationSize" = x.size.map Byml.float := by
  obtain ⟨px, py, sz, o, r⟩ := x
  cases px <;> cases py <;> cases sz <;> exact ⟨_, rfl, rfl, rfl, rfl, rfl, rfl⟩

theorem decodeUnitEntries_ok {h : List (String × Byml)} {key m1 m2 : String}
    {M : SortedDeleteMap Byml}
    (hd : decodeUnitEntries h key m1 m2 = Except.ok M) :
    M.WellFormed ∧ M.KeyCoherent m2 := by
  unfold decodeUnitEntries at hd
  split at hd
  · exact absurd hd (by simp)
  split at hd
  · exact absurd hd (by simp)
  split at hd
  · exact absurd hd (by simp)
  rename_i x1 node hget x2 arr harr x3 pairs hpairs
  simp only [Except.ok.injEq] at hd
  subst hd
  refine ⟨fromList_wf pairs, ?_⟩
  intro e he
  obtain ⟨v, hv, hmem⟩ := fromList_mem pairs e he
  obtain ⟨obj, hobj, hg⟩ := mapME_ok_mem _ arr pairs hpairs (e.1, v) hmem
  refine ⟨v, hv, ?_⟩
  cases hid : entryId m2 obj with
  | error e2 =>
    rw [hid] at hg
    exact absurd hg (by simp)
  | ok id =>
    rw [hid] at hg
    simp only [Except.ok.injEq, Prod.mk.injEq] at hg
    rw [← hg.1, ← hg.2]
    exact hid

theorem tryFrom_ok_decoded {b : Byml} {x : MapUnit} (h : MapUnit.tryFrom b = Except.ok x) :
    x.Decoded := by
  unfold MapUnit.tryFrom at h
  split at h
  · exact absurd h (by simp)
  split at h
  · exact absurd h (by simp)
  split at h
  · exact absurd h (by simp)
  split at h
  · exact absurd h (by simp)
  split at h
  · exact absurd h (by simp)
  split at h
  · exact absurd h (by simp)
  rename_i x1 hash hhash x2 px hpx x3 py hpy x4 sz hsz x5 objects hobjs x6 rails hrails
  simp only [Except.ok.injEq] at h
  subst h
  obtain ⟨how, hoc⟩ := decodeUnitEntries_ok hobjs
  obtain ⟨hrw2, hrc⟩ := decodeUnitEntries_ok hrails
  exact ⟨⟨how, hrw2⟩, hoc, hrc⟩

theorem coherent_decode_pairs (msg : String) :
    ∀ (es : List (Nat × Option Byml)),
      (∀ e ∈ es, ∃ v, e.2 = some v ∧ entryId msg v = Except.ok e.1) →
      ∃ pairs : List (Nat × Byml),
        mapME (fun obj =>
          match entryId msg obj with
          | Except.error e => Except.error e
          | Except.ok id => Except.ok (id, obj)) (es.filterMap (fun e => e.2)) =
            Except.ok pairs ∧
        pairs.map (fun p => (p.1, some p.2)) = es := by
  intro es
  induction es with
  | nil => exact fun _ => ⟨[], rfl, rfl⟩
  | cons e t ih =>
    intro hall
    obtain ⟨k, ov⟩ := e
    obtain ⟨v, hv, hid⟩ := hall (k, ov) (by simp)
    simp only at hv
    subst hv
    obtain ⟨pairs, hp1, hp2⟩ := ih (fun e2 he2 => hall e2 (by simp [he2]))
    refine ⟨(k, v) :: pairs, ?_, ?_⟩
    · rw [List.filterMap_cons]
      simp only [mapME, hid, hp1]
    · rw [List.map_cons, hp2]

theorem getFloatOpt_encode {H : List (String × Byml)} {k : String} {px : Option F32}
    (hget : hashGet H k = px.map Byml.float) :
    getFloatOpt H k = Except.ok px := by
  cases px with
  | none => simp [getFloatOpt, hget]
  | some f => simp [getFloatOpt, hget, Byml.as_float]

theorem decodeUnitEntries_encode {H : List (String × Byml)} {key m1 m2 : String}
    {m : SortedDeleteMap Byml}
    (hget : hashGet H key = some (Byml.array m.liveValues))
    (hwf : m.WellFormed) (hco : m.KeyCoherent m2) :
    decodeUnitEntries H key m1 m2 = Except.ok m := by
  obtain ⟨pairs, hp1, hp2⟩ := coherent_decode_pairs m2 m.entries hco
  have hkeys : pairs.map Prod.fst = m.entries.map Prod.fst := by
    rw [← hp2, List.map_map]
    rfl
  have hsorted : List.Pairwise (· < ·) (pairs.map Prod.fst) := by
    rw [hkeys]
    exact hwf.1
  have hfrom : SortedDeleteMap.fromList pairs = m := by
    apply SortedDeleteMap.entries_ext
    rw [fromList_sorted_input pairs hsorted, hp2]
  have hlv : SortedDeleteMap.liveValues m = m.entries.filterMap (fun e => e.2) := rfl
  simp [decodeUnitEntries, hget, Byml.as_array, hlv, hp1, hfrom]

theorem tryFrom_toByml {x : MapUnit} (hx : x.Decoded) :
    MapUnit.tryFrom x.toByml = Except.ok x := by
  obtain ⟨H, hH, hObjs, hRails, hX, hY, hS⟩ := toByml_spec x
  rw [hH]
  simp [MapUnit.tryFrom, Byml.as_hash, getFloatOpt_encode hX, getFloatOpt_encode hY,
    getFloatOpt_encode hS, decodeUnitEntries_encode hObjs hx.1.1 hx.2.1,
    decodeUnitEntries_encode hRails hx.1.2 hx.2.2]

/-- C1: for every pair of well-formed `MapUnit` values `a` and `b`,
`a.merge (a.diff b) = b` — diff followed by merge is an exact round-trip over
the map-unit resource, covering the optional scalars `pos_x`, `pos_y`, `size`
and both `SortedDeleteMap` containers `objects` and `rails`. -/
theorem C1_mapunit_merge_diff_roundtrip (a b : MapUnit)
    (ha : a.WellFormed) (hb : b.WellFormed) : a.merge (a.diff b) = b := by
  have h1 := SortedDeleteMap.merge_diff_eq a.objects b.objects ha.1 hb.1
  have h2 := SortedDeleteMap.merge_diff_eq a.rails b.rails ha.2 hb.2
  show MapUnit.mk b.pos_x b.pos_y b.size
    (a.objects.merge (a.objects.diff b.objects)) (a.rails.merge (a.rails.diff b.rails)) = b
  rw [h1, h2]

/-- C1 witness: the round-trip law evaluated at two concrete well-formed map
units. -/
theorem C1_mapunit_merge_diff_roundtrip_witness :
    MapUnit.WellFormed ⟨some ⟨1⟩, none, none,
        ⟨[(1, some (Byml.uint 5)), (2, some Byml.null)]⟩, ⟨[]⟩⟩ ∧
    MapUnit.WellFormed ⟨none, some ⟨2⟩, none,
        ⟨[(1, some (Byml.uint 6)), (3, some (Byml.bool true))]⟩,
        ⟨[(4, some Byml.null)]⟩⟩ ∧
    MapUnit.merge ⟨some ⟨1⟩, none, none,
        ⟨[(1, some (Byml.uint 5)), (2, some Byml.null)]⟩, ⟨[]⟩⟩
      (MapUnit.diff ⟨some ⟨1⟩, none, none,
          ⟨[(1, some (Byml.uint 5)), (2, some Byml.null)]⟩, ⟨[]⟩⟩
        ⟨none, some ⟨2⟩, none,
          ⟨[(1, some (Byml.uint 6)), (3, some (Byml.bool true))]⟩,
          ⟨[(4, some Byml.null)]⟩⟩) =
      ⟨none, some ⟨2⟩, none,
        ⟨[(1, some (Byml.uint 6)), (3, some (Byml.bool true))]⟩,
        ⟨[(4, some Byml.null)]⟩⟩ :=
  ⟨by decide, by decide,
    C1_mapunit_merge_diff_roundtrip _ _ (by decide) (by decide)⟩

/-- C2 counterexample: a diff whose `pos_x` is `none` does not leave the
base's `pos_x` unchanged — the merge result's `pos_x` becomes `none` although
the base carried a value. -/
theorem C2_none_scalar_counterexample :
    (MapUnit.mk none none none ⟨[]⟩ ⟨[]⟩).pos_x = none ∧
    (MapUnit.merge (MapUnit.mk (some ⟨1⟩) (some ⟨2⟩) (some ⟨3⟩) ⟨[]⟩ ⟨[]⟩)
        (MapUnit.mk none none none ⟨[]⟩ ⟨[]⟩)).pos_x ≠
      (MapUnit.mk (some ⟨1⟩) (some ⟨2⟩) (some ⟨3⟩) ⟨[]⟩ ⟨[]⟩).pos_x := by
  exact ⟨rfl, by decide⟩

/-- C2 (amended): `MapUnit.merge` copies the diff's optional scalar fields
verbatim, so a `none` scalar in the diff yields `none` in the result — the
base's value is kept only when the diff itself carries it (as diffs produced
by `MapUnit.diff` do), not by virtue of the diff's field being absent. -/
theorem C2_scalar_fields_verbatim (base d : MapUnit) :
    (base.merge d).pos_x = d.pos_x ∧ (base.merge d).pos_y = d.pos_y ∧
      (base.merge d).size = d.size :=
  ⟨rfl, rfl, rfl⟩

/-- C3: for every `MapUnit` produced by a successful decode, re-decoding its
encoding succeeds and returns the same value. -/
theorem C3_decode_encode_roundtrip (b : Byml) (x : MapUnit)
    (h : MapUnit.tryFrom b = Except.ok x) :
    MapUnit.tryFrom (MapUnit.toByml x) = Except.ok x :=
  tryFrom_toByml (tryFrom_ok_decoded h)

/-- C3 witness: the decode/encode round-trip evaluated on a concrete tree. -/
theorem C3_decode_encode_roundtrip_witness :
    MapUnit.tryFrom (Byml.hash [("LocationPosX", Byml.float ⟨9⟩),
        ("Objs", Byml.array [Byml.hash [("HashId", Byml.uint 7)]]),
        ("Rails", Byml.array [])]) =
      Except.ok ⟨some ⟨9⟩, none, none,
        ⟨[(7, some (Byml.hash [("HashId", Byml.uint 7)]))]⟩, ⟨[]⟩⟩ ∧
    MapUnit.tryFrom (MapUnit.toByml ⟨some ⟨9⟩, none, none,
        ⟨[(7, some (Byml.hash [("HashId", Byml.uint 7)]))]⟩, ⟨[]⟩⟩) =
      Except.ok ⟨some ⟨9⟩, none, none,
        ⟨[(7, some (Byml.hash [("HashId", Byml.uint 7)]))]⟩, ⟨[]⟩⟩ :=
  ⟨by decide,
    C3_decode_encode_roundtrip
      (Byml.hash [("LocationPosX", Byml.float ⟨9⟩),
        ("Objs", Byml.array [Byml.hash [("HashId", Byml.uint 7)]]),
        ("Rails", Byml.array [])])
      ⟨some ⟨9⟩, none, none,
        ⟨[(7, some (Byml.hash [("HashId", Byml.uint 7)]))]⟩, ⟨[]⟩⟩ (by decide)⟩

/-- C10: every `MapUnit` produced by a successful decode satisfies key–value
coherence — in both containers, each entry is live and its `u32` key equals
the `HashId` unsigned-integer field stored inside the entry's value node. -/
theorem C10_decode_key_coherent (b : Byml) (x : MapUnit)
    (h : MapUnit.tryFrom b = Except.ok x) :
    (∀ e ∈ x.objects.entries, ∃ v, e.2 = some v ∧
      entryId "Map unit object missing hash ID" v = Except.ok e.1) ∧
    (∀ e ∈ x.rails.entries, ∃ v, e.2 = some v ∧
      entryId "Map unit rail missing hash ID" v = Except.ok e.1) :=
  ⟨(tryFrom_ok_decoded h).2.1, (tryFrom_ok_decoded h).2.2⟩

/-- C10 witness: key–value coherence evaluated on a concrete decode. -/
theorem C10_decode_key_coherent_witness :
    MapUnit.tryFrom (Byml.hash [("Objs", Byml.array [Byml.hash [("HashId", Byml.uint 3)]]),
        ("Rails", Byml.array [Byml.hash [("HashId", Byml.uint 8)]])]) =
      Except.ok ⟨none, none, none,
        ⟨[(3, some (Byml.hash [("HashId", Byml.uint 3)]))]⟩,
        ⟨[(8, some (Byml.hash [("HashId", Byml.uint 8)]))]⟩⟩ ∧
    ((∀ e ∈ (SortedDeleteMap.mk [(3, some (Byml.hash [("HashId", Byml.uint 3)]))]).entries,
        ∃ v, e.2 = some v ∧
          entryId "Map unit object missing hash ID" v = Except.ok e.1) ∧
      (∀ e ∈ (SortedDeleteMap.mk [(8, some (Byml.hash [("HashId", Byml.uint 8)]))]).entries,
        ∃ v, e.2 = some v ∧
          entryId "Map unit rail missing hash ID" v = Except.ok e.1)) :=
  ⟨by decide,
    C10_decode_key_coherent
      (Byml.hash [("Objs", Byml.array [Byml.hash [("HashId", Byml.uint 3)]]),
        ("Rails", Byml.array [Byml.hash [("HashId", Byml.uint 8)]])])
      ⟨none, none, none,
        ⟨[(3, some (Byml.hash [("HashId", Byml.uint 3)]))]⟩,
        ⟨[(8, some (Byml.hash [("HashId", Byml.uint 8)]))]⟩⟩ (by decide)⟩

/-- C6: a map-unit tree that is a well-formed map lacking `Objs` fails decode
with the shape error naming the objects field; the missing-rails,
missing-object-HashId and missing-rail-HashId cases each fail with their own
tag, and the four tags are pairwise distinct. -/
theorem C6_missing_field_errors :
    (∀ (h : List (String × Byml)) (px py sz : Option F32),
      getFloatOpt h "LocationPosX" = Except.ok px →
      getFloatOpt h "LocationPosY" = Except.ok py →
      getFloatOpt h "LocationSize" = Except.ok sz →
      hashGet h "Objs" = none →
      MapUnit.tryFrom (Byml.hash h) =
        Except.error (UKError.MissingBymlKey "Map unit missing objs")) ∧
    (∀ (h : List (String × Byml)) (px py sz : Option F32) (M : SortedDeleteMap Byml),
      getFloatOpt h "LocationPosX" = Except.ok px →
      getFloatOpt h "LocationPosY" = Except.ok py →
      getFloatOpt h "LocationSize" = Except.ok sz →
      decodeUnitEntries h "Objs" "Map unit missing objs"
          "Map unit object missing hash ID" = Except.ok M →
      hashGet h "Rails" = none →
      MapUnit.tryFrom (Byml.hash h) =
        Except.error (UKError.MissingBymlKey "Map unit missing rails")) ∧
    (∀ (h oh : List (String × Byml)) (px py sz : Option F32),
      getFloatOpt h "LocationPosX" = Except.ok px →
      getFloatOpt h "LocationPosY" = Except.ok py →
      getFloatOpt h "LocationSize" = Except.ok sz →
      hashGet h "Objs" = some (Byml.array [Byml.hash oh]) →
      hashGet oh "HashId" = none →
      MapUnit.tryFrom (Byml.hash h) =
        Except.error (UKError.MissingBymlKey "Map unit object missing hash ID")) ∧
    (∀ (h oh : List (String × Byml)) (px py sz : Option F32) (M : SortedDeleteMap Byml),
      getFloatOpt h "LocationPosX" = Except.ok px →
      getFloatOpt h "LocationPosY" = Except.ok py →
      getFloatOpt h "LocationSize" = Except.ok sz →
      decodeUnitEntries h "Objs" "Map unit missing objs"
          "Map unit object missing hash ID" = Except.ok M →
      hashGet h "Rails" = some (Byml.array [Byml.hash oh]) →
      hashGet oh "HashId" = none →
      MapUnit.tryFrom (Byml.hash h) =
        Except.error (UKError.MissingBymlKey "Map unit rail missing hash ID")) ∧
    List.Pairwise (· ≠ ·)
      [UKError.MissingBymlKey "Map unit missing objs",
        UKError.MissingBymlKey "Map unit missing rails",
        UKError.MissingBymlKey "Map unit object missing hash ID",
        UKError.MissingBymlKey "Map unit rail missing hash ID"] := by
  refine ⟨?_, ?_, ?_, ?_, by decide⟩
  · intro h px py sz hpx hpy hsz hobj
    simp [MapUnit.tryFrom, Byml.as_hash, hpx, hpy, hsz, decodeUnitEntries, hobj]
  · intro h px py sz M hpx hpy hsz hM hrails
    simp only [MapUnit.tryFrom, Byml.as_hash, hpx, hpy, hsz, hM]
    simp [decodeUnitEntries, hrails]
  · intro h oh px py sz hpx hpy hsz hobj hid
    simp [MapUnit.tryFrom, Byml.as_hash, hpx, hpy, hsz, decodeUnitEntries, hobj,
      Byml.as_array, mapME, entryId, hid]
  · intro h oh px py sz M hpx hpy hsz hM hrails hid
    simp only [MapUnit.tryFrom, Byml.as_hash, hpx, hpy, hsz, hM]
    simp [decodeUnitEntries, hrails, Byml.as_array, Byml.as_hash, mapME, entryId, hid]

/-- C6 witness: the four missing-field failures evaluated on concrete trees. -/
theorem C6_missing_field_errors_witness :
    hashGet [] "Objs" = none ∧
    MapUnit.tryFrom (Byml.hash []) =
      Except.error (UKError.MissingBymlKey "Map unit missing objs") ∧
    MapUnit.tryFrom (Byml.hash [("Objs", Byml.array [])]) =
      Except.error (UKError.MissingBymlKey "Map unit missing rails") ∧
    MapUnit.tryFrom (Byml.hash [("Objs", Byml.array [Byml.hash []])]) =
      Except.error (UKError.MissingBymlKey "Map unit object missing hash ID") ∧
    MapUnit.tryFrom (Byml.hash [("Objs", Byml.array []),
        ("Rails", Byml.array [Byml.hash []])]) =
      Except.error (UKError.MissingBymlKey "Map unit rail missing hash ID") :=
  ⟨rfl,
    C6_missing_field_errors.1 [] none none none rfl rfl rfl rfl,
    C6_missing_field_errors.2.1 [("Objs", Byml.array [])] none none none ⟨[]⟩
      rfl rfl rfl (by decide) rfl,
    C6_missing_field_errors.2.2.1 [("Objs", Byml.array [Byml.hash []])] [] none none none
      rfl rfl rfl rfl rfl,
    C6_missing_field_errors.2.2.2.1 [("Objs", Byml.array []),
        ("Rails", Byml.array [Byml.hash []])] [] none none none ⟨[]⟩
      rfl rfl rfl (by decide) rfl rfl⟩

theorem as_float_of_ne {v : Byml} (h : ∀ f, v ≠ Byml.float f) :
    v.as_float = Except.error (UKError.WrongBymlType "float") := by
  cases v <;> try rfl
  exact absurd rfl (h _)

/-- C9: for each optional scalar key (`LocationPosX`, `LocationPosY`,
`LocationSize`), an absent key decodes to `none` (with the rest of the tree
well-formed), while a present key holding a non-float node fails decode with
the typed wrong-type error. -/
theorem C9_optional_scalar_decode :
    (∀ (h : List (String × Byml)) (py sz : Option F32) (M1 M2 : SortedDeleteMap Byml),
      hashGet h "LocationPosX" = none →
      getFloatOpt h "LocationPosY" = Except.ok py →
      getFloatOpt h "LocationSize" = Except.ok sz →
      decodeUnitEntries h "Objs" "Map unit missing objs"
          "Map unit object missing hash ID" = Except.ok M1 →
      decodeUnitEntries h "Rails" "Map unit missing rails"
          "Map unit rail missing hash ID" = Except.ok M2 →
      MapUnit.tryFrom (Byml.hash h) = Except.ok ⟨none, py, sz, M1, M2⟩) ∧
    (∀ (h : List (String × Byml)) (px sz : Option F32) (M1 M2 : SortedDeleteMap Byml),
      getFloatOpt h "LocationPosX" = Except.ok px →
      hashGet h "LocationPosY" = none →
      getFloatOpt h "LocationSize" = Except.ok sz →
      decodeUnitEntries h "Objs" "Map unit missing objs"
          "Map unit object missing hash ID" = Except.ok M1 →
      decodeUnitEntries h "Rails" "Map unit missing rails"
          "Map unit rail missing hash ID" = Except.ok M2 →
      MapUnit.tryFrom (Byml.hash h) = Except.ok ⟨px, none, sz, M1, M2⟩) ∧
    (∀ (h : List (String × Byml)) (px py : Option F32) (M1 M2 : SortedDeleteMap Byml),
      getFloatOpt h "LocationPosX" = Except.ok px →
      getFloatOpt h "LocationPosY" = Except.ok py →
      hashGet h "LocationSize" = none →
      decodeUnitEntries h "Objs" "Map unit missing objs"
          "Map unit object missing hash ID" = Except.ok M1 →
      decodeUnitEntries h "Rails" "Map unit missing rails"
          "Map unit rail missing hash ID" = Except.ok M2 →
      MapUnit.tryFrom (Byml.hash h) = Except.ok ⟨px, py, none, M1, M2⟩) ∧
    (∀ (h : List (String × Byml)) (v : Byml),
      hashGet h "LocationPosX" = some v → (∀ f, v ≠ Byml.float f) →
      MapUnit.tryFrom (Byml.hash h) =
        Except.error (UKError.WrongBymlType "float")) ∧
    (∀ (h : List (String × Byml)) (px : Option F32) (v : Byml),
      getFloatOpt h "LocationPosX" = Except.ok px →
      hashGet h "LocationPosY" = some v → (∀ f, v ≠ Byml.float f) →
      MapUnit.tryFrom (Byml.hash h) =
        Except.error (UKError.WrongBymlType "float")) ∧
    (∀ (h : List (String × Byml)) (px py : Option F32) (v : Byml),
      getFloatOpt h "LocationPosX" = Except.ok px →
      getFloatOpt h "LocationPosY" = Except.ok py →
      hashGet h "LocationSize" = some v → (∀ f, v ≠ Byml.float f) →
      MapUnit.tryFrom (Byml.hash h) =
        Except.error (UKError.WrongBymlType "float")) := by
  refine ⟨?_, ?_, ?_, ?_, ?_, ?_⟩
  · intro h py sz M1 M2 hx hpy hsz hM1 hM2
    have hpx : getFloatOpt h "LocationPosX" = Except.ok none := by
      simp [getFloatOpt, hx]
    simp only [MapUnit.tryFrom, Byml.as_hash, hpx, hpy, hsz, hM1, hM2]
  · intro h px sz M1 M2 hpx hy hsz hM1 hM2
    have hpy : getFloatOpt h "LocationPosY" = Except.ok none := by
      simp [getFloatOpt, hy]
    simp only [MapUnit.tryFrom, Byml.as_hash, hpx, hpy, hsz, hM1, hM2]
  · intro h px py M1 M2 hpx hpy hs hM1 hM2
    have hsz : getFloatOpt h "LocationSize" = Except.ok none := by
      simp [getFloatOpt, hs]
    simp only [MapUnit.tryFrom, Byml.as_hash, hpx, hpy, hsz, hM1, hM2]
  · intro h v hx hv
    have hpx : getFloatOpt h "LocationPosX" =
        Except.error (UKError.WrongBymlType "float") := by
      simp [getFloatOpt, hx, as_float_of_ne hv]
    simp [MapUnit.tryFrom, Byml.as_hash, hpx]
  · intro h px v hpx hy hv
    have hpy : getFloatOpt h "LocationPosY" =
        Except.error (UKError.WrongBymlType "float") := by
      simp [getFloatOpt, hy, as_float_of_ne hv]
    simp [MapUnit.tryFrom, Byml.as_hash, hpx, hpy]
  · intro h px py v hpx hpy hs hv
    have hsz : getFloatOpt h "LocationSize" =
        Except.error (UKError.WrongBymlType "float") := by
      simp [getFloatOpt, hs, as_float_of_ne hv]
    simp [MapUnit.tryFrom, Byml.as_hash, hpx, hpy, hsz]

/-- C9 witness: the six optional-scalar behaviors evaluated on concrete
trees. -/
theorem C9_optional_scalar_decode_witness :
    MapUnit.tryFrom (Byml.hash [("Objs", Byml.array []), ("Rails", Byml.array [])]) =
      Except.ok ⟨none, none, none, ⟨[]⟩, ⟨[]⟩⟩ ∧
    MapUnit.tryFrom (Byml.hash [("LocationPosX", Byml.float ⟨5⟩),
        ("Objs", Byml.array []), ("Rails", Byml.array [])]) =
      Except.ok ⟨some ⟨5⟩, none, none, ⟨[]⟩, ⟨[]⟩⟩ ∧
    MapUnit.tryFrom (Byml.hash [("LocationPosY", Byml.float ⟨6⟩),
        ("Objs", Byml.array []), ("Rails", Byml.array [])]) =
      Except.ok ⟨none, some ⟨6⟩, none, ⟨[]⟩, ⟨[]⟩⟩ ∧
    MapUnit.tryFrom (Byml.hash [("LocationPosX", Byml.str "bad")]) =
      Except.error (UKError.WrongBymlType "float") ∧
    MapUnit.tryFrom (Byml.hash [("LocationPosY", Byml.bool true)]) =
      Except.error (UKError.WrongBymlType "float") ∧
    MapUnit.tryFrom (Byml.hash [("LocationSize", Byml.null)]) =
      Except.error (UKError.WrongBymlType "float") :=
  ⟨C9_optional_scalar_decode.1 [("Objs", Byml.array []), ("Rails", Byml.array [])]
      none none ⟨[]⟩ ⟨[]⟩ rfl rfl rfl (by decide) (by decide),
    C9_optional_scalar_decode.2.1 [("LocationPosX", Byml.float ⟨5⟩),
        ("Objs", Byml.array []), ("Rails", Byml.array [])]
      (some ⟨5⟩) none ⟨[]⟩ ⟨[]⟩ rfl rfl rfl (by decide) (by decide),
    C9_optional_scalar_decode.2.2.1 [("LocationPosY", Byml.float ⟨6⟩),
        ("Objs", Byml.array []), ("Rails", Byml.array [])]
      none (some ⟨6⟩) ⟨[]⟩ ⟨[]⟩ rfl rfl rfl (by decide) (by decide),
    C9_optional_scalar_decode.2.2.2.1 [("LocationPosX", Byml.str "bad")]
      (Byml.str "bad") rfl (by intro f h; cases h),
    C9_optional_scalar_decode.2.2.2.2.1 [("LocationPosY", Byml.bool true)]
      none (Byml.bool true) rfl rfl (by intro f h; cases h),
    C9_optional_scalar_decode.2.2.2.2.2 [("LocationSize", Byml.null)]
      none none Byml.null rfl rfl rfl (by intro f h; cases h)⟩

/-- C4: the Platform/endian conversions of `settings.rs` map WiiU to
big-endian and Switch to little-endian, are mutually inverse for each of the
three codec endian types (`roead`, `uk_content`, `rstb`), and any two codecs'
conversions agree on every Platform value. -/
theorem C4_platform_endian_consistent :
    (∀ p : Platform, (p.toRoead).toPlatform = p) ∧
    (∀ e : RoeadEndian, (e.toPlatform).toRoead = e) ∧
    (∀ p : Platform, (p.toUk).toPlatform = p) ∧
    (∀ e : UkEndian, (e.toPlatform).toUk = e) ∧
    (∀ p : Platform, (p.toRstb).toPlatform = p) ∧
    (∀ e : RstbEndian, (e.toPlatform).toRstb = e) ∧
    Platform.WiiU.toRoead = RoeadEndian.Big ∧
    Platform.Switch.toRoead = RoeadEndian.Little ∧
    Platform.WiiU.toUk = UkEndian.Big ∧
    Platform.Switch.toUk = UkEndian.Little ∧
    Platform.WiiU.toRstb = RstbEndian.Big ∧
    Platform.Switch.toRstb = RstbEndian.Little ∧
    (∀ p : Platform, (p.toRoead).isBig = (p.toUk).isBig ∧
      (p.toUk).isBig = (p.toRstb).isBig) :=
  ⟨fun p => by cases p <;> rfl, fun e => by cases e <;> rfl,
    fun p => by cases p <;> rfl, fun e => by cases e <;> rfl,
    fun p => by cases p <;> rfl, fun e => by cases e <;> rfl,
    rfl, rfl, rfl, rfl, rfl, rfl,
    fun p => by cases p <;> exact ⟨rfl, rfl⟩⟩

/-- C7: when the patch log file does not exist, `handle_actorinfo` returns
success without fetching from the dump or writing anything, for any settings
state — absence of the patch file is never an error. -/
theorem C7_absent_patch_skips (env : BnpEnv) (h : env.patchFile = none) :
    handle_actorinfo env = ([], Except.ok ()) := by
  simp [handle_actorinfo, h]

/-- C7 witness: the absent-patch skip evaluated at a concrete environment. -/
theorem C7_absent_patch_skips_witness :
    (BnpEnv.mk none (fun _ => none)
        (Settings.mk Platform.WiiU "" false none none false false)).patchFile = none ∧
    handle_actorinfo (BnpEnv.mk none (fun _ => none)
        (Settings.mk Platform.WiiU "" false none none false false)) =
      ([], Except.ok ()) :=
  ⟨rfl, C7_absent_patch_skips _ rfl⟩

/-- C8: when the patch file exists but `Settings::dump()` gives no dump for
the current platform, `handle_actorinfo` fails with an error having performed
no fetch and no write; and `Settings::dump()` is `none` exactly when the
platform config matching `current_mode` is absent. -/
theorem C8_no_dump_fatal :
    (∀ env : BnpEnv, env.patchFile.isSome → env.settings.dump = none →
      ∃ e, handle_actorinfo env = ([], Except.error e)) ∧
    (∀ s : Settings, s.dump = none ↔ s.platform_config = none) := by
  constructor
  · intro env hp hd
    cases hpf : env.patchFile with
    | none => rw [hpf] at hp; simp at hp
    | some text =>
      cases hpt : env.parseText text with
      | none => exact ⟨"Failed to parse actorinfo log", by simp [handle_actorinfo, hpf, hpt]⟩
      | some byml =>
        cases byml with
        | hash entries =>
          cases hmo : mapMO (fun p => (parseU32 p.1).map (fun n => (n, p.2))) entries with
          | none => exact ⟨"invalid actorinfo key", by simp [handle_actorinfo, hpf, hpt, hmo]⟩
          | some pairs =>
            exact ⟨"No dump for current platform",
              by simp [handle_actorinfo, hpf, hpt, hmo, hd]⟩
        | null => exact ⟨"Invalid actorinfo log: not a map", by simp [handle_actorinfo, hpf, hpt]⟩
        | bool b => exact ⟨"Invalid actorinfo log: not a map", by simp [handle_actorinfo, hpf, hpt]⟩
        | int i => exact ⟨"Invalid actorinfo log: not a map", by simp [handle_actorinfo, hpf, hpt]⟩
        | uint n => exact ⟨"Invalid actorinfo log: not a map", by simp [handle_actorinfo, hpf, hpt]⟩
        | float f => exact ⟨"Invalid actorinfo log: not a map", by simp [handle_actorinfo, hpf, hpt]⟩
        | str s => exact ⟨"Invalid actorinfo log: not a map", by simp [handle_actorinfo, hpf, hpt]⟩
        | binary bs =>
          exact ⟨"Invalid actorinfo log: not a map", by simp [handle_actorinfo, hpf, hpt]⟩
        | array xs =>
          exact ⟨"Invalid actorinfo log: not a map", by simp [handle_actorinfo, hpf, hpt]⟩
  · intro s
    obtain ⟨mode, sd, um, wc, sc, cu, scl⟩ := s
    cases mode <;> cases wc <;> cases sc <;>
      simp [Settings.dump, Settings.platform_config]

/-- C8 witness: the missing-dump failure evaluated at a concrete environment
whose current mode is Switch with no Switch config. -/
theorem C8_no_dump_fatal_witness :
    (BnpEnv.mk (some "log") (fun _ => some (Byml.hash []))
        (Settings.mk Platform.Switch "" false none none false false)).patchFile.isSome ∧
    (Settings.mk Platform.Switch "" false none none false false).dump = none ∧
    (∃ e, handle_actorinfo (BnpEnv.mk (some "log") (fun _ => some (Byml.hash []))
        (Settings.mk Platform.Switch "" false none none false false)) =
      ([], Except.error e)) ∧
    ((Settings.mk Platform.Switch "" false none none false false).dump = none ↔
      (Settings.mk Platform.Switch "" false none none false false).platform_config = none) :=
  ⟨rfl, rfl, C8_no_dump_fatal.1 _ rfl rfl, C8_no_dump_fatal.2 _⟩

/-- C5 counterexample: a run in which the patch parses, the dump is present,
the fetch succeeds, but the fetched resource's mergeable view is not an
ActorInfo — `handle_actorinfo` returns success and writes nothing, instead of
failing loudly as the claim states. -/
theorem C5_silent_skip_counterexample :
    (handle_actorinfo (BnpEnv.mk (some "log")
        (fun _ => some (Byml.hash [("12", Byml.null)]))
        (Settings.mk Platform.WiiU "" false
          (some (PlatformSettings.mk
            (ResourceReader.mk (Except.ok (DumpResource.mk
              (some MergeableResource.otherKind)))) none UkLanguage.USen))
          none false false))).2 = Except.ok () ∧
    (handle_actorinfo (BnpEnv.mk (some "log")
        (fun _ => some (Byml.hash [("12", Byml.null)]))
        (Settings.mk Platform.WiiU "" false
          (some (PlatformSettings.mk
            (ResourceReader.mk (Except.ok (DumpResource.mk
              (some MergeableResource.otherKind)))) none UkLanguage.USen))
          none false false))).1 = [BnpEvent.fetched] :=
  ⟨rfl, rfl⟩

/-- C5 (amended): when the pipeline has a parsed diff and a fetched base
resource whose mergeable view is not of the expected ActorInfo kind,
`handle_actorinfo` returns success without writing any artifact — a silent
skip, not a loud failure. -/
theorem C5_non_mergeable_silent_skip (env : BnpEnv) (text : String)
    (entries : List (String × Byml)) (pairs : List (Nat × Byml))
    (reader : ResourceReader) (res : DumpResource)
    (h1 : env.patchFile = some text)
    (h2 : env.parseText text = some (Byml.hash entries))
    (h3 : mapMO (fun p => (parseU32 p.1).map (fun n => (n, p.2))) entries = some pairs)
    (h4 : env.settings.dump = some reader)
    (h5 : reader.actorInfoData = Except.ok res)
    (h6 : res.mergeableView = some MergeableResource.otherKind) :
    handle_actorinfo env = ([BnpEvent.fetched], Except.ok ()) := by
  simp [handle_actorinfo, h1, h2, h3, h4, h5, h6]

/-- C5 witness: the silent skip evaluated at a concrete environment. -/
theorem C5_non_mergeable_silent_skip_witness :
    (ResourceReader.mk (Except.ok (DumpResource.mk
        (some MergeableResource.otherKind)))).actorInfoData =
      Except.ok (DumpResource.mk (some MergeableResource.otherKind)) ∧
    handle_actorinfo (BnpEnv.mk (some "x")
        (fun _ => some (Byml.hash [("7", Byml.null)]))
        (Settings.mk Platform.Switch "" false none
          (some (PlatformSettings.mk
            (ResourceReader.mk (Except.ok (DumpResource.mk
              (some MergeableResource.otherKind)))) none UkLanguage.USen))
          false false)) = ([BnpEvent.fetched], Except.ok ()) :=
  ⟨rfl,
    C5_non_mergeable_silent_skip _ "x" [("7", Byml.null)] [(7, Byml.null)]
      (ResourceReader.mk (Except.ok (DumpResource.mk
        (some MergeableResource.otherKind))))
      (DumpResource.mk (some MergeableResource.otherKind))
      rfl rfl (by decide) rfl rfl rfl⟩
